import Mathlib

/-!
# go-repo: pattern matching on parsed diffs, bare-repository lookup, tree listings

A shallow embedding of `types.go` (`FileDiffDetail.Matches`) and `bare.go`
(`findRefsDirectory`, `checkRefsDirectory`, `BareRepo.ListFiles`,
`BareRepo.FileSize`) together with the properties established about them.

Go strings holding valid UTF-8 text are modelled by the list of their code
points, so that `strings.TrimSpace`, `strings.Split` and the `\s+` pattern act
on the same units as in Go.
-/

set_option autoImplicit false
set_option linter.unusedVariables false

namespace GoRepo

/-- Go `string` holding UTF-8 text, as the list of its code points. -/
abbrev GoString := List Char

/-! ## `types.go` -/

/-- Go `Hunk` struct of `types.go`. -/
structure Hunk where
  Header : GoString
  Content : GoString
  RemovedLines : List GoString
  AddedLines : List GoString
deriving DecidableEq

/-- Go `FileDiffDetail` struct of `types.go`. -/
structure FileDiffDetail where
  Hunks : List Hunk
deriving DecidableEq

/-- A compiled `*regexp.Regexp`, seen through the only method `Matches` calls:
`MatchString`. Any pattern is some such predicate. -/
structure Regexp where
  MatchString : GoString → Bool

/-- The pattern made of a literal text: it matches a line that contains the
text somewhere (Go patterns are unanchored). -/
def Regexp.literal (pat : GoString) : Regexp :=
  ⟨fun l => l.tails.any (fun t => pat.isPrefixOf t)⟩

/-- The inner loops of `Matches`:
`for _, l := range lines { if regexp.MatchString(l) { flag = true; break } }`,
returning the value of `flag` after the loop. -/
def Matches.scanLines (re : Regexp) (flag : Bool) : List GoString → Bool
  | [] => flag
  | l :: ls => if re.MatchString l then true else Matches.scanLines re flag ls

/-- The three named results of `Matches`, which the loop body updates. -/
structure MatchesState where
  hunks : List Hunk
  addedLinewMatch : Bool
  removedLinewMatch : Bool
deriving DecidableEq

/-- One iteration of `for _, h := range d.Hunks` in `Matches`. The local
`hunkMatches` is declared (zero value `false`) and never assigned. -/
def Matches.body (re : Regexp) (st : MatchesState) (h : Hunk) : MatchesState :=
  let hunkMatches : Bool := false
  let removedLinewMatch := Matches.scanLines re st.removedLinewMatch h.RemovedLines
  let addedLinewMatch := Matches.scanLines re st.addedLinewMatch h.AddedLines
  let hunks := if hunkMatches then st.hunks ++ [h] else st.hunks
  { hunks := hunks, addedLinewMatch := addedLinewMatch, removedLinewMatch := removedLinewMatch }

/-- Go `func (d FileDiffDetail) Matches(regexp *regexp.Regexp)
(hunks []Hunk, addedLinewMatch bool, removedLinewMatch bool)`. -/
def FileDiffDetail.Matches (d : FileDiffDetail) (re : Regexp) : MatchesState :=
  d.Hunks.foldl (Matches.body re) { hunks := [], addedLinewMatch := false, removedLinewMatch := false }

/-! ## `bare.go`: locating the repository root -/

/-- Go `error` values that the modelled functions return: `errors.New(msg)`,
and the `*strconv.NumError` of `strconv.ParseInt` with its `Func`, `Num` and
`Err` (the text of `strconv.ErrSyntax` or `strconv.ErrRange`). -/
inductive GoError where
  | New (msg : GoString)
  | NumError (Func Num Err : GoString)
deriving DecidableEq

/-- A cleaned absolute path, the value `filepath.Abs` returns on a Unix system,
as the list of its components below the root: `[]` is `/`, `[a, b]` is `/a/b`.
On such a path `path.Join(p)` and `filepath.Abs(p)` return `p` itself, the
latter with a nil error. -/
abbrev AbsPath := List GoString

/-- The text of a cleaned absolute path: `/` followed by the components joined
by `/`. -/
def AbsPath.render (p : AbsPath) : GoString :=
  '/' :: List.intercalate ['/'] p

/-- Go `filepath.Dir` on a cleaned absolute path: the path without its last
component; the root is its own parent. -/
def filepathDir (p : AbsPath) : AbsPath :=
  p.dropLast

/-- Go `filepath.Join(path, elem)` for a cleaned absolute `path` and a single
plain component `elem`. -/
def filepathJoin (p : AbsPath) (elem : GoString) : AbsPath :=
  p ++ [elem]

/-- The file system as `os.Stat` sees it: `present q` says that `os.Stat(q)`
returns a nil error, `isDir q` that the `FileInfo` it then returns reports a
directory, and `statCalls` counts the calls of `os.Stat` made so far. -/
structure FileSystem where
  present : AbsPath → Bool
  isDir : AbsPath → Bool
  statCalls : Nat

/-- Go `os.Stat(name)`, reduced to whether the returned error is nil, which is
all `checkRefsDirectory` looks at (it discards the `FileInfo`); the call is
counted. -/
def osStat (fs : FileSystem) (name : AbsPath) : Bool × FileSystem :=
  (fs.present name, { fs with statCalls := fs.statCalls + 1 })

/-- Go `checkRefsDirectory`: `os.Stat` of `filepath.Join(path, "refs")`; false
when the call returns an error, true otherwise. -/
def checkRefsDirectory (fs : FileSystem) (path : AbsPath) : Bool × FileSystem :=
  let dotGit := filepathJoin path "refs".toList
  let r := osStat fs dotGit
  if r.1 = false then (false, r.2) else (true, r.2)

/-- Go `path.Join(p)` with the single element `p`: `path.Clean(p)`, which
returns a cleaned path as it is. -/
def pathJoin (p : AbsPath) : AbsPath :=
  p

/-- Go `filepath.Abs(p)` on an absolute path: `filepath.Clean(p)` and a nil
error (the working directory is not consulted). -/
def filepathAbs (p : AbsPath) : AbsPath × Option GoError :=
  (p, none)

/-- Go `findRefsDirectory`, on a cleaned absolute path. The result is the pair
`(string, error)` of the Go function together with the file system after the
calls. The test `p == string(filepath.Separator)` is `p = []`, the only path
whose text is `/`. The recursion is on the parent directory of a path that is
not the root, which has one component less. -/
def findRefsDirectory (fs : FileSystem) (p0 : AbsPath) :
    (GoString × Option GoError) × FileSystem :=
  let p1 := pathJoin p0
  match hAbs : filepathAbs p1 with
  | (_, some err) => (([], some err), fs)
  | (p, none) =>
    if _h : p = [] then
      (([], some (GoError.New "refs directory not found".toList)), fs)
    else
      let r := checkRefsDirectory fs p
      if r.1 = true then
        ((AbsPath.render p, none), r.2)
      else
        let parent := filepathDir p
        findRefsDirectory r.2 parent
termination_by p0.length
decreasing_by
  have hp : p = p0 := by
    simp only [filepathAbs, pathJoin, Prod.mk.injEq, and_true] at hAbs
    exact hAbs.symm
  subst hp
  simp only [filepathDir, List.length_dropLast]
  have : 0 < p.length := List.length_pos.mpr _h
  omega

/-- A file system whose only entry is the directory `/srv/repo.git/refs`. -/
def fsBareRepo : FileSystem :=
  { present := fun q => q == ["srv".toList, "repo.git".toList, "refs".toList],
    isDir := fun q => q == ["srv".toList, "repo.git".toList, "refs".toList],
    statCalls := 0 }

/-- A file system whose only entry is the directory `/refs`, directly under the
root. -/
def fsRootRefs : FileSystem :=
  { present := fun q => q == ["refs".toList],
    isDir := fun q => q == ["refs".toList],
    statCalls := 0 }

/-- A file system without any entry. -/
def fsEmpty : FileSystem :=
  { present := fun _ => false, isDir := fun _ => false, statCalls := 0 }

/-- A file system whose only entry is `/srv/repo/refs`, a regular file and not
a directory. -/
def fsRefsRegularFile : FileSystem :=
  { present := fun q => q == ["srv".toList, "repo".toList, "refs".toList],
    isDir := fun _ => false,
    statCalls := 0 }

/-! ## `bare.go`: tree listings -/

/-- Go `unicode.IsSpace`: the Latin-1 spaces `\t \n \v \f \r`, space, U+0085,
U+00A0, and beyond Latin-1 the code points of the `White_Space` table. -/
def unicodeIsSpace (c : Char) : Bool :=
  let r := c.toNat
  (9 ≤ r && r ≤ 13) || r == 0x20 || r == 0x85 || r == 0xA0 || r == 0x1680 ||
    (0x2000 ≤ r && r ≤ 0x200A) || r == 0x2028 || r == 0x2029 || r == 0x202F ||
    r == 0x205F || r == 0x3000

/-- Go `strings.TrimSpace`: the text without its leading and trailing
`unicode.IsSpace` code points. -/
def stringsTrimSpace (s : GoString) : GoString :=
  ((s.dropWhile unicodeIsSpace).reverse.dropWhile unicodeIsSpace).reverse

/-- Go `strings.Index(s, sep)` for a separator of one character, together with
the two slices `s[:m]` and `s[m+len(sep):]` that `genSplit` takes when the
index `m` is not negative. -/
def stringsCut (sep : Char) : GoString → Option (GoString × GoString)
  | [] => none
  | c :: cs =>
    if c = sep then some ([], cs)
    else match stringsCut sep cs with
      | none => none
      | some (a, b) => some (c :: a, b)

/-- The loop of Go `strings.genSplit`: `k` is `n - i`, the number of cuts the
loop may still make, and the last piece is what remains. -/
def genSplitLoop (sep : Char) : Nat → GoString → List GoString
  | 0, s => [s]
  | k + 1, s =>
    match stringsCut sep s with
    | none => [s]
    | some (a, rest) => a :: genSplitLoop sep k rest

/-- Go `strings.SplitN(s, sep, n)` for a separator of one character and
`n ≥ 0`: nil for `n = 0`, else at most `n` pieces, `n` capped at `len(s)+1`. -/
def stringsSplitN (s : GoString) (sep : Char) (n : Nat) : List GoString :=
  if n = 0 then [] else genSplitLoop sep (min n (s.length + 1) - 1) s

/-- Go `strings.Split(s, sep)` for a separator of one character: `genSplit`
with `n = strings.Count(s, sep) + 1`. -/
def stringsSplit (s : GoString) (sep : Char) : List GoString :=
  genSplitLoop sep (min (s.count sep + 1) (s.length + 1) - 1) s

/-- Go `strings.Replace(s, old, new, -1)` for `old` and `new` of one character
each. -/
def stringsReplaceAll (s : GoString) (old new : Char) : GoString :=
  s.map (fun c => if c = old then new else c)

/-- The class `\s` of Go patterns: `[\t\n\f\r ]`. -/
def reIsSpace (c : Char) : Bool :=
  c = '\t' || c = '\n' || c.toNat = 12 || c = '\r' || c = ' '

/-- The package variable `singleSpacePattern = regexp.MustCompile("\\s+")` with
its method `ReplaceAllString(s, " ")`: every maximal run of `\s` characters
becomes one space. The flag says that the previous character belongs to a run
already replaced. -/
def singleSpacePattern.ReplaceAllString.go (inRun : Bool) : GoString → GoString
  | [] => []
  | c :: cs =>
    if reIsSpace c then
      if inRun then singleSpacePattern.ReplaceAllString.go true cs
      else ' ' :: singleSpacePattern.ReplaceAllString.go true cs
    else c :: singleSpacePattern.ReplaceAllString.go false cs

/-- Go `singleSpacePattern.ReplaceAllString(s, " ")`. -/
def singleSpacePattern.ReplaceAllString (s : GoString) : GoString :=
  singleSpacePattern.ReplaceAllString.go false s

/-- The `*strconv.NumError` for `strconv.ErrSyntax` from `ParseInt`. -/
def syntaxError (s0 : GoString) : GoError :=
  GoError.NumError "ParseInt".toList s0 "invalid syntax".toList

/-- The `*strconv.NumError` for `strconv.ErrRange` from `ParseInt`. -/
def rangeError (s0 : GoString) : GoError :=
  GoError.NumError "ParseInt".toList s0 "value out of range".toList

/-- What the digit loop of `strconv.ParseUint` ends with. -/
inductive ParseUintResult where
  | value (n : Nat)
  | syntaxErr
  | rangeErr
deriving DecidableEq

/-- The digit loop of Go `strconv.ParseUint(s, 10, 64)`, `n` being the `uint64`
accumulator: a character other than `0`..`9` is a syntax error (in base 10 a
letter is a digit that is too large and `_` is not accepted); `n >= cutoff`
with `cutoff = maxUint64/10 + 1`, or a wrap of `n*10 + d` modulo `2^64`, is a
range error. -/
def parseUintLoop (n : Nat) : GoString → ParseUintResult
  | [] => ParseUintResult.value n
  | c :: cs =>
    if '0' ≤ c ∧ c ≤ '9' then
      let d := c.toNat - '0'.toNat
      if n ≥ (2 ^ 64 - 1) / 10 + 1 then ParseUintResult.rangeErr
      else
        let n10 := (n * 10) % 2 ^ 64
        let n1 := (n10 + d) % 2 ^ 64
        if n1 < n10 ∨ n1 > 2 ^ 64 - 1 then ParseUintResult.rangeErr
        else parseUintLoop n1 cs
    else ParseUintResult.syntaxErr

/-- Go `strconv.ParseUint(s, 10, 64)`; on a range error the value returned is
`maxVal = 2^64 - 1`. -/
def strconvParseUint (s : GoString) : ParseUintResult :=
  if s = [] then ParseUintResult.syntaxErr else parseUintLoop 0 s

/-- Go `strconv.ParseInt(s, 10, 64)`, returning the pair `(int64, error)`. -/
def strconvParseInt (s : GoString) : Int × Option GoError :=
  if s = [] then (0, some (syntaxError s))
  else
    let s0 := s
    let neg := s.head? = some '-'
    let s := if s.head? = some '+' then s.tail else if s.head? = some '-' then s.tail else s
    match strconvParseUint s with
    | ParseUintResult.syntaxErr => (0, some (syntaxError s0))
    | ParseUintResult.rangeErr =>
      -- `un = maxVal`, which is beyond both cutoffs
      if neg then (-(2 ^ 63 : Int), some (rangeError s0))
      else ((2 ^ 63 - 1 : Int), some (rangeError s0))
    | ParseUintResult.value un =>
      if ¬ neg ∧ un ≥ 2 ^ 63 then ((2 ^ 63 - 1 : Int), some (rangeError s0))
      else if neg ∧ un > 2 ^ 63 then (-(2 ^ 63 : Int), some (rangeError s0))
      else if neg then (-(un : Int), none) else ((un : Int), none)

/-- Go `BareRepo.ListFiles`, given what `runCmd("git", "ls-tree", "--full-tree",
"--name-only", "-r", "HEAD")` returned. -/
def BareRepo.ListFiles (output : GoString) (err : Option GoError) :
    List GoString × Option GoError :=
  match err with
  | some e => ([], some e)
  | none =>
    let output := stringsTrimSpace output
    let files := stringsSplit output '\n'
    (files, none)

/-- The body of `for _, file := range files` in `FileSize`, run over the rows
that remain; when the rows are used up the statement after the loop returns
the not-found error. -/
def BareRepo.FileSize.loop (filename : GoString) : List GoString → Int × Option GoError
  | [] =>
    (-1, some (GoError.New
      ("unable to file size: file ".toList ++ filename ++ " not found".toList)))
  | file :: files =>
    let file := stringsReplaceAll file '\t' ' '
    let file := singleSpacePattern.ReplaceAllString file
    let tuple := stringsSplitN file ' ' 5
    if tuple.length ≠ 5 then
      (-1, some (GoError.New ("unable to file size: ".toList ++ file)))
    else if tuple.getD 4 [] = filename then
      strconvParseInt (tuple.getD 3 [])
    else BareRepo.FileSize.loop filename files

/-- Go `BareRepo.FileSize`, given what `runCmd("git", "ls-tree", "--full-tree",
"--long", "-r", "HEAD")` returned. -/
def BareRepo.FileSize (output : GoString) (err : Option GoError) (filename : GoString) :
    Int × Option GoError :=
  match err with
  | some e => (-1, some e)
  | none =>
    let output := stringsTrimSpace output
    let files := stringsSplit output '\n'
    BareRepo.FileSize.loop filename files

/-- The rows `FileSize` iterates over: `strings.Split(strings.TrimSpace(output),
"\n")`. -/
def BareRepo.FileSize.rows (output : GoString) : List GoString :=
  stringsSplit (stringsTrimSpace output) '\n'

/-- The value of the loop variable `file` after its two reassignments in the
body of the loop of `FileSize`. -/
def BareRepo.FileSize.normalized (file : GoString) : GoString :=
  singleSpacePattern.ReplaceAllString (stringsReplaceAll file '\t' ' ')

/-- The value of `tuple` in the body of the loop of `FileSize`, for the row
`file`. -/
def BareRepo.FileSize.tuple (file : GoString) : List GoString :=
  stringsSplitN (BareRepo.FileSize.normalized file) ' ' 5

/-- The message of the error `FileSize` returns after the loop. -/
def BareRepo.FileSize.notFound (filename : GoString) : GoError :=
  GoError.New ("unable to file size: file ".toList ++ filename ++ " not found".toList)

/-! ## Well-formed listings -/

/-- A field of a row: not empty and free of whitespace. -/
def IsField (f : GoString) : Prop :=
  f ≠ [] ∧ ∀ c ∈ f, unicodeIsSpace c = false

instance (f : GoString) : Decidable (IsField f) := by
  unfold IsField; infer_instance

/-- A size field: a non-empty run of the digits `0`..`9`. -/
def IsDecimal (f : GoString) : Prop :=
  f ≠ [] ∧ ∀ c ∈ f, '0' ≤ c ∧ c ≤ '9'

instance (f : GoString) : Decidable (IsDecimal f) := by
  unfold IsDecimal; infer_instance

/-- The number a run of decimal digits denotes. -/
def decimalValue (f : GoString) : Nat :=
  f.foldl (fun a c => a * 10 + (c.toNat - '0'.toNat)) 0

/-- A row of `git ls-tree --long`: mode, object type, object name, the size
right-justified by `pad` further spaces, a tab, and the file name. -/
structure TreeRow where
  mode : GoString
  objType : GoString
  hash : GoString
  pad : Nat
  size : GoString
  name : GoString

/-- The text of a row, `mode type hash size<TAB>name`, without its newline. -/
def TreeRow.render (r : TreeRow) : GoString :=
  r.mode ++ ' ' :: (r.objType ++ ' ' :: (r.hash ++ ' ' ::
    (List.replicate r.pad ' ' ++ (r.size ++ '\t' :: r.name))))

/-- A file name that the replacement of whitespace runs leaves as it is, that
does not start with a `\s` character and does not end with a space. -/
def IsPlainName (n : GoString) : Prop :=
  n ≠ [] ∧ singleSpacePattern.ReplaceAllString n = n ∧
    (∀ c, n.head? = some c → reIsSpace c = false) ∧
    (∀ c, n.getLast? = some c → unicodeIsSpace c = false)

instance (n : GoString) : Decidable (IsPlainName n) := by
  unfold IsPlainName; infer_instance

/-- A row whose first three fields are free of whitespace, whose size is a
decimal number below `2^63`, and whose name is plain. -/
def TreeRow.WellFormed (r : TreeRow) : Prop :=
  IsField r.mode ∧ IsField r.objType ∧ IsField r.hash ∧ IsDecimal r.size ∧
    decimalValue r.size < 2 ^ 63 ∧ IsPlainName r.name

instance (r : TreeRow) : Decidable r.WellFormed := by
  unfold TreeRow.WellFormed; infer_instance

/-! ## Properties of `FileDiffDetail.Matches` -/

theorem Matches.scanLines_eq (re : Regexp) (flag : Bool) (ls : List GoString) :
    Matches.scanLines re flag ls = (flag || ls.any re.MatchString) := by
  induction ls with
  | nil => simp [Matches.scanLines]
  | cons l ls ih =>
    by_cases h : re.MatchString l = true
    · simp [Matches.scanLines, h]
    · simp [Matches.scanLines, h, ih]

theorem Matches.foldl_body (re : Regexp) (hs : List Hunk) (st : MatchesState) :
    hs.foldl (Matches.body re) st =
      { hunks := st.hunks,
        addedLinewMatch := st.addedLinewMatch || hs.any (fun h => h.AddedLines.any re.MatchString),
        removedLinewMatch :=
          st.removedLinewMatch || hs.any (fun h => h.RemovedLines.any re.MatchString) } := by
  induction hs generalizing st with
  | nil => simp
  | cons h hs ih =>
    rw [List.foldl_cons, ih]
    simp [Matches.body, Matches.scanLines_eq, Bool.or_assoc]

theorem Matches.hunks_eq_nil (d : FileDiffDetail) (re : Regexp) :
    (d.Matches re).hunks = [] := by
  rw [FileDiffDetail.Matches, Matches.foldl_body]

/-- C1: `Matches` reports a removed-line match exactly when some hunk has a
removed line the pattern matches, and an added-line match exactly when some
hunk has an added line the pattern matches; a detail whose only line is an
added line `foo` gives added = true and removed = false for the pattern `foo`. -/
theorem Matches_flags (d : FileDiffDetail) (re : Regexp) :
    ((d.Matches re).removedLinewMatch = true ↔
        ∃ h ∈ d.Hunks, ∃ l ∈ h.RemovedLines, re.MatchString l = true) ∧
    ((d.Matches re).addedLinewMatch = true ↔
        ∃ h ∈ d.Hunks, ∃ l ∈ h.AddedLines, re.MatchString l = true) ∧
    ((FileDiffDetail.mk [⟨"@@ -1,0 +1 @@".toList, "+foo".toList, [], ["foo".toList]⟩]).Matches
        (Regexp.literal "foo".toList)).addedLinewMatch = true ∧
    ((FileDiffDetail.mk [⟨"@@ -1,0 +1 @@".toList, "+foo".toList, [], ["foo".toList]⟩]).Matches
        (Regexp.literal "foo".toList)).removedLinewMatch = false := by
  refine ⟨?_, ?_, by decide, by decide⟩
  · simp [FileDiffDetail.Matches, Matches.foldl_body]
  · simp [FileDiffDetail.Matches, Matches.foldl_body]

/-- C9: the hunk list `Matches` returns is empty for every detail and every
pattern, whatever the two line-match flags are; for instance it is empty on a
hunk that removes `foo` and adds `foo bar`, where the pattern `foo` sets both
flags. -/
theorem Matches_hunks_empty (d : FileDiffDetail) (re : Regexp) :
    (d.Matches re).hunks = [] ∧
    (FileDiffDetail.mk [⟨"@@ -1 +1 @@".toList, "-foo\n+foo bar".toList, ["foo".toList],
        ["foo bar".toList]⟩]).Matches (Regexp.literal "foo".toList) =
      { hunks := [], addedLinewMatch := true, removedLinewMatch := true } :=
  ⟨Matches.hunks_eq_nil d re, by decide⟩

/-- C2: on a detail whose single hunk has the added line `foo`, the pattern
`foo` is reported as matching an added line and yet the returned hunk list does
not contain that hunk. -/
theorem Matches_hunks_misses_matching_hunk :
    ((FileDiffDetail.mk [⟨"@@ -1,0 +1 @@".toList, "+foo".toList, [], ["foo".toList]⟩]).Matches
        (Regexp.literal "foo".toList)).addedLinewMatch = true ∧
    (⟨"@@ -1,0 +1 @@".toList, "+foo".toList, [], ["foo".toList]⟩ : Hunk) ∉
      ((FileDiffDetail.mk [⟨"@@ -1,0 +1 @@".toList, "+foo".toList, [], ["foo".toList]⟩]).Matches
        (Regexp.literal "foo".toList)).hunks := by
  refine ⟨by decide, ?_⟩
  rw [Matches.hunks_eq_nil]
  exact List.not_mem_nil _

/-! ## Properties of `findRefsDirectory` -/

/-- The root test of `findRefsDirectory`, `p == string(filepath.Separator)`:
the text of a path whose components are not empty is `/` exactly when the path
has no component. -/
theorem AbsPath.render_eq_root_iff (p : AbsPath) (h : ∀ c ∈ p, c ≠ []) :
    AbsPath.render p = "/".toList ↔ p = [] := by
  constructor
  · intro hr
    cases p with
    | nil => rfl
    | cons c cs =>
      have hc : c ≠ [] := h c (List.mem_cons_self _ _)
      obtain ⟨x, xs, rfl⟩ := List.exists_cons_of_ne_nil hc
      cases cs <;> simp [AbsPath.render, List.intercalate] at hr
  · intro hp
    rw [hp]
    rfl

theorem checkRefsDirectory_fst (fs : FileSystem) (p : AbsPath) :
    (checkRefsDirectory fs p).1 = fs.present (p ++ ["refs".toList]) := by
  unfold checkRefsDirectory osStat filepathJoin
  generalize "refs".toList = m
  by_cases h : fs.present (p ++ [m]) = false <;> simp_all

theorem checkRefsDirectory_snd (fs : FileSystem) (p : AbsPath) :
    (checkRefsDirectory fs p).2 = { fs with statCalls := fs.statCalls + 1 } := by
  unfold checkRefsDirectory osStat filepathJoin
  generalize "refs".toList = m
  by_cases h : fs.present (p ++ [m]) = false <;> simp_all

theorem findRefsDirectory_root (fs : FileSystem) :
    findRefsDirectory fs [] =
      (([], some (GoError.New "refs directory not found".toList)), fs) := by
  rw [findRefsDirectory]; simp [filepathAbs, pathJoin]

theorem findRefsDirectory_marker (fs : FileSystem) (p : AbsPath) (hp : p ≠ [])
    (hm : fs.present (p ++ ["refs".toList]) = true) :
    findRefsDirectory fs p =
      ((AbsPath.render p, none), { fs with statCalls := fs.statCalls + 1 }) := by
  rw [findRefsDirectory]
  simp only [filepathAbs, pathJoin, hp, checkRefsDirectory_fst, checkRefsDirectory_snd, hm]
  simp

theorem findRefsDirectory_ascend (fs : FileSystem) (p : AbsPath) (hp : p ≠ [])
    (hm : fs.present (p ++ ["refs".toList]) = false) :
    findRefsDirectory fs p =
      findRefsDirectory { fs with statCalls := fs.statCalls + 1 } (filepathDir p) := by
  rw [findRefsDirectory]
  simp only [filepathAbs, pathJoin, hp, checkRefsDirectory_fst, checkRefsDirectory_snd, hm]
  simp

theorem filepathDir_concat (l : AbsPath) (a : GoString) : filepathDir (l ++ [a]) = l := by
  simp [filepathDir]

theorem findRefsDirectory_no_marker (p : AbsPath) :
    ∀ fs : FileSystem,
      (∀ k, 0 < k → k ≤ p.length → fs.present (p.take k ++ ["refs".toList]) = false) →
      (findRefsDirectory fs p).1 =
        ([], some (GoError.New "refs directory not found".toList)) := by
  induction p using List.reverseRecOn with
  | nil => intro fs _; rw [findRefsDirectory_root]
  | append_singleton l a ih =>
    intro fs h
    have hp : l ++ [a] ≠ [] := by simp
    have hm : fs.present ((l ++ [a]) ++ ["refs".toList]) = false := by
      have := h (l ++ [a]).length (by simp) (Nat.le_refl _)
      rwa [List.take_length] at this
    rw [findRefsDirectory_ascend fs _ hp hm, filepathDir_concat]
    apply ih
    intro k hk hkl
    have := h k hk (by simp; omega)
    rwa [List.take_append_of_le_length hkl] at this

theorem findRefsDirectory_finds (d : AbsPath) (hd : d ≠ []) (rest : AbsPath) :
    ∀ fs : FileSystem,
      fs.present (d ++ ["refs".toList]) = true →
      (∀ k, 0 < k → k ≤ rest.length →
        fs.present (d ++ rest.take k ++ ["refs".toList]) = false) →
      (findRefsDirectory fs (d ++ rest)).1 = (AbsPath.render d, none) := by
  induction rest using List.reverseRecOn with
  | nil =>
    intro fs hm _
    rw [List.append_nil, findRefsDirectory_marker fs d hd hm]
  | append_singleton l a ih =>
    intro fs hm h
    have hp : d ++ (l ++ [a]) ≠ [] := by simp
    have hn : fs.present ((d ++ (l ++ [a])) ++ ["refs".toList]) = false := by
      have := h (l ++ [a]).length (by simp) (Nat.le_refl _)
      rwa [List.take_length] at this
    rw [findRefsDirectory_ascend fs _ hp hn, ← List.append_assoc, filepathDir_concat]
    refine ih { fs with statCalls := fs.statCalls + 1 } hm ?_
    intro k hk hkl
    have := h k hk (by simp; omega)
    rwa [List.take_append_of_le_length hkl] at this

theorem findRefsDirectory_statCalls (p : AbsPath) :
    ∀ fs : FileSystem, (findRefsDirectory fs p).2.statCalls ≤ fs.statCalls + p.length := by
  induction p using List.reverseRecOn with
  | nil => intro fs; rw [findRefsDirectory_root]; simp
  | append_singleton l a ih =>
    intro fs
    have hp : l ++ [a] ≠ [] := by simp
    cases hm : fs.present ((l ++ [a]) ++ ["refs".toList]) with
    | true =>
      rw [findRefsDirectory_marker fs _ hp hm]
      simp
    | false =>
      rw [findRefsDirectory_ascend fs _ hp hm, filepathDir_concat]
      have := ih { fs with statCalls := fs.statCalls + 1 }
      simp at this ⊢
      omega

/-- C6 (as amended): for a directory `d` other than the filesystem root that
contains the `refs` entry, and a start path `d/rest` none of whose directories
strictly below `d` contains it, `findRefsDirectory` returns the text of `d`
and a nil error. -/
theorem findRefsDirectory_returns_nearest_marker (fs : FileSystem) (d rest : AbsPath)
    (hd : d ≠ [])
    (hmark : fs.present (d ++ ["refs".toList]) = true)
    (hnone : ∀ k, 0 < k → k ≤ rest.length →
      fs.present (d ++ rest.take k ++ ["refs".toList]) = false) :
    (findRefsDirectory fs (d ++ rest)).1 = (AbsPath.render d, none) :=
  findRefsDirectory_finds d hd rest fs hmark hnone

/-- C6, witness: from `/srv/repo.git/a/b/c`, three levels below the directory
`/srv/repo.git` that holds `refs`, the result is `/srv/repo.git`. -/
theorem findRefsDirectory_returns_nearest_marker_witness :
    (findRefsDirectory fsBareRepo
        (["srv".toList, "repo.git".toList] ++ ["a".toList, "b".toList, "c".toList])).1 =
      ("/srv/repo.git".toList, none) :=
  findRefsDirectory_returns_nearest_marker fsBareRepo ["srv".toList, "repo.git".toList]
    ["a".toList, "b".toList, "c".toList] (by decide) (by decide)
    (fun k hk hkl => by
      have hk3 : k = 1 ∨ k = 2 ∨ k = 3 := by
        simp only [List.length_cons, List.length_nil] at hkl
        omega
      rcases hk3 with rfl | rfl | rfl <;> decide)

/-- C6, counterexample: the root directory holds `refs` (`/refs` exists) and
`/a` does not; started at `/a`, and started at `/` itself, `findRefsDirectory`
returns the empty path and the error `refs directory not found` instead of
the root. -/
theorem findRefsDirectory_root_marker_not_returned :
    fsRootRefs.present (([] : AbsPath) ++ ["refs".toList]) = true ∧
    fsRootRefs.present (["a".toList] ++ ["refs".toList]) = false ∧
    (findRefsDirectory fsRootRefs ["a".toList]).1 =
      ([], some (GoError.New "refs directory not found".toList)) ∧
    (findRefsDirectory fsRootRefs []).1 =
      ([], some (GoError.New "refs directory not found".toList)) ∧
    (findRefsDirectory fsRootRefs ["a".toList]).1 ≠ (AbsPath.render [], none) := by
  have h1 : fsRootRefs.present (["a".toList] ++ ["refs".toList]) = false := by decide
  have h2 : (findRefsDirectory fsRootRefs ["a".toList]).1 =
      ([], some (GoError.New "refs directory not found".toList)) := by
    rw [findRefsDirectory_ascend fsRootRefs _ (by simp) h1]
    simp [filepathDir, findRefsDirectory_root]
  refine ⟨by decide, h1, h2, ?_, ?_⟩
  · rw [findRefsDirectory_root]
  · rw [h2]; simp

/-- C7 (as amended): when `os.Stat` fails on `refs` in the start path and in
every one of its ancestors up to and including the root, so that none of them
has an entry named `refs` of any kind, `findRefsDirectory` returns the empty
path and the error `refs directory not found`. -/
theorem findRefsDirectory_not_found (fs : FileSystem) (p : AbsPath)
    (h : ∀ k, k ≤ p.length → fs.present (p.take k ++ ["refs".toList]) = false) :
    (findRefsDirectory fs p).1 =
      ([], some (GoError.New "refs directory not found".toList)) :=
  findRefsDirectory_no_marker p fs (fun k _ hk => h k hk)

/-- C7, witness: in a file system without any entry, the search from
`/tmp/x/y` fails with `refs directory not found`. -/
theorem findRefsDirectory_not_found_witness :
    (findRefsDirectory fsEmpty ["tmp".toList, "x".toList, "y".toList]).1 =
      ([], some (GoError.New "refs directory not found".toList)) :=
  findRefsDirectory_not_found fsEmpty ["tmp".toList, "x".toList, "y".toList]
    (fun _ _ => rfl)

/-- C7, counterexample: `/srv/repo/refs` is a regular file, so none of
`/srv/repo`, `/srv` and `/` contains a `refs` subdirectory, and yet
`findRefsDirectory` started at `/srv/repo` returns `/srv/repo` with a nil
error: `checkRefsDirectory` asks `os.Stat` only whether `refs` exists. -/
theorem findRefsDirectory_refs_regular_file_returned :
    fsRefsRegularFile.isDir ["srv".toList, "repo".toList, "refs".toList] = false ∧
    fsRefsRegularFile.isDir ["srv".toList, "refs".toList] = false ∧
    fsRefsRegularFile.isDir ["refs".toList] = false ∧
    (findRefsDirectory fsRefsRegularFile ["srv".toList, "repo".toList]).1 =
      ("/srv/repo".toList, none) ∧
    (findRefsDirectory fsRefsRegularFile ["srv".toList, "repo".toList]).1 ≠
      ([], some (GoError.New "refs directory not found".toList)) := by
  have h : (findRefsDirectory fsRefsRegularFile ["srv".toList, "repo".toList]).1 =
      ("/srv/repo".toList, none) := by
    rw [findRefsDirectory_marker fsRefsRegularFile _ (by simp) (by decide)]
    rfl
  refine ⟨rfl, rfl, rfl, h, ?_⟩
  rw [h]
  simp

/-- C10: `findRefsDirectory` is a total function; at the root it returns
without any `os.Stat` call; at a path that is not the root it probes once and
either returns or continues with the parent, which has exactly one component
less; and the number of `os.Stat` calls of a run is at most the number of
components of the start path. -/
theorem findRefsDirectory_terminates_within_depth (fs : FileSystem) (p : AbsPath) :
    (findRefsDirectory fs [] =
        (([], some (GoError.New "refs directory not found".toList)), fs)) ∧
    (p ≠ [] → (checkRefsDirectory fs p).1 = true →
        findRefsDirectory fs p = ((AbsPath.render p, none), (checkRefsDirectory fs p).2)) ∧
    (p ≠ [] → (checkRefsDirectory fs p).1 = false →
        findRefsDirectory fs p = findRefsDirectory (checkRefsDirectory fs p).2 (filepathDir p) ∧
        (filepathDir p).length + 1 = p.length) ∧
    (checkRefsDirectory fs p).2.statCalls = fs.statCalls + 1 ∧
    (findRefsDirectory fs p).2.statCalls ≤ fs.statCalls + p.length := by
  refine ⟨findRefsDirectory_root fs, ?_, ?_, ?_, findRefsDirectory_statCalls p fs⟩
  · intro hp hm
    rw [checkRefsDirectory_fst] at hm
    rw [findRefsDirectory_marker fs p hp hm, checkRefsDirectory_snd]
  · intro hp hm
    rw [checkRefsDirectory_fst] at hm
    refine ⟨?_, ?_⟩
    · rw [findRefsDirectory_ascend fs p hp hm, checkRefsDirectory_snd]
    · have : 0 < p.length := List.length_pos.mpr hp
      simp only [filepathDir, List.length_dropLast]
      omega
  · rw [checkRefsDirectory_snd]

/-- C10, witness: the search from `/srv/repo.git/a/b/c` stops at
`/srv/repo.git` after three `os.Stat` calls, within the bound of five. -/
theorem findRefsDirectory_terminates_within_depth_witness :
    (findRefsDirectory fsBareRepo
        ["srv".toList, "repo.git".toList, "a".toList, "b".toList, "c".toList]).2.statCalls
      ≤ fsBareRepo.statCalls + 5 :=
  (findRefsDirectory_terminates_within_depth fsBareRepo
    ["srv".toList, "repo.git".toList, "a".toList, "b".toList, "c".toList]).2.2.2.2

/-! ## Properties of `BareRepo.ListFiles` and `BareRepo.FileSize` -/

theorem FileSize.loop_nil (filename : GoString) :
    BareRepo.FileSize.loop filename [] = (-1, some (BareRepo.FileSize.notFound filename)) :=
  rfl

theorem FileSize.loop_malformed (filename file : GoString) (files : List GoString)
    (h : (BareRepo.FileSize.tuple file).length ≠ 5) :
    BareRepo.FileSize.loop filename (file :: files) =
      (-1, some (GoError.New
        ("unable to file size: ".toList ++ BareRepo.FileSize.normalized file))) := by
  have h5 : (stringsSplitN (singleSpacePattern.ReplaceAllString
      (stringsReplaceAll file '\t' ' ')) ' ' 5).length ≠ 5 := h
  simp only [BareRepo.FileSize.loop, BareRepo.FileSize.normalized]
  rw [if_pos h5]

theorem FileSize.loop_match (filename file : GoString) (files : List GoString)
    (h : (BareRepo.FileSize.tuple file).length = 5)
    (hname : (BareRepo.FileSize.tuple file).getD 4 [] = filename) :
    BareRepo.FileSize.loop filename (file :: files) =
      strconvParseInt ((BareRepo.FileSize.tuple file).getD 3 []) := by
  have h5 : ¬ (stringsSplitN (singleSpacePattern.ReplaceAllString
      (stringsReplaceAll file '\t' ' ')) ' ' 5).length ≠ 5 := fun hn => hn h
  have hn : (stringsSplitN (singleSpacePattern.ReplaceAllString
      (stringsReplaceAll file '\t' ' ')) ' ' 5).getD 4 [] = filename := hname
  simp only [BareRepo.FileSize.loop, BareRepo.FileSize.tuple, BareRepo.FileSize.normalized]
  rw [if_neg h5, if_pos hn]

theorem FileSize.loop_skip (filename file : GoString) (files : List GoString)
    (h : (BareRepo.FileSize.tuple file).length = 5)
    (hname : (BareRepo.FileSize.tuple file).getD 4 [] ≠ filename) :
    BareRepo.FileSize.loop filename (file :: files) =
      BareRepo.FileSize.loop filename files := by
  have h5 : ¬ (stringsSplitN (singleSpacePattern.ReplaceAllString
      (stringsReplaceAll file '\t' ' ')) ' ' 5).length ≠ 5 := fun hn => hn h
  have hn : ¬ (stringsSplitN (singleSpacePattern.ReplaceAllString
      (stringsReplaceAll file '\t' ' ')) ' ' 5).getD 4 [] = filename := hname
  simp only [BareRepo.FileSize.loop]
  rw [if_neg h5, if_neg hn]

theorem FileSize.loop_skip_all (filename : GoString) (pre files : List GoString)
    (hpre : ∀ r ∈ pre, (BareRepo.FileSize.tuple r).length = 5 ∧
      (BareRepo.FileSize.tuple r).getD 4 [] ≠ filename) :
    BareRepo.FileSize.loop filename (pre ++ files) =
      BareRepo.FileSize.loop filename files := by
  induction pre with
  | nil => rfl
  | cons r pre ih =>
    have hr := hpre r (List.mem_cons_self r pre)
    rw [List.cons_append, FileSize.loop_skip filename r _ hr.1 hr.2]
    exact ih (fun q hq => hpre q (List.mem_cons_of_mem r hq))

theorem FileSize.eq_loop (output filename : GoString) :
    BareRepo.FileSize output none filename =
      BareRepo.FileSize.loop filename (BareRepo.FileSize.rows output) :=
  rfl

/-- C3: in the listing of the single row `100644 blob <hash>      12<TAB>a  b`
the file `a  b` (two spaces in its name) has size 12, and `FileSize` of that
name returns -1 with the not-found error: the whitespace runs of the whole row,
those of the name included, have been replaced by single spaces before the
name is compared. -/
theorem FileSize_name_with_space_run_not_found :
    BareRepo.FileSize
        "100644 blob 5716ca5987cbf97d6bb54920bea6adde242d87e6      12\ta  b\n".toList none
        "a  b".toList =
      (-1, some (GoError.New "unable to file size: file a  b not found".toList)) ∧
    BareRepo.FileSize.tuple
        "100644 blob 5716ca5987cbf97d6bb54920bea6adde242d87e6      12\ta  b".toList =
      ["100644".toList, "blob".toList, "5716ca5987cbf97d6bb54920bea6adde242d87e6".toList,
        "12".toList, "a b".toList] := by
  constructor <;> decide

/-- C4 (as amended): when the rows before some row all split into five fields
with a name other than the requested one, and that row does not split into
five fields, `FileSize` returns -1 and the error `unable to file size: `
followed by that row with its whitespace runs replaced by single spaces. -/
theorem FileSize_malformed_row_before_match (output filename : GoString)
    (pre : List GoString) (row : GoString) (post : List GoString)
    (hrows : BareRepo.FileSize.rows output = pre ++ row :: post)
    (hpre : ∀ r ∈ pre, (BareRepo.FileSize.tuple r).length = 5 ∧
      (BareRepo.FileSize.tuple r).getD 4 [] ≠ filename)
    (hrow : (BareRepo.FileSize.tuple row).length ≠ 5) :
    BareRepo.FileSize output none filename =
      (-1, some (GoError.New
        ("unable to file size: ".toList ++ BareRepo.FileSize.normalized row))) := by
  rw [FileSize.eq_loop, hrows, FileSize.loop_skip_all filename pre _ hpre,
    FileSize.loop_malformed filename row post hrow]

/-- C4, witness: the row `garbage` follows a well-formed row of another file
and precedes the row of the requested file `b`. -/
theorem FileSize_malformed_row_before_match_witness :
    BareRepo.FileSize
        "100644 blob 0123abc       5\ta\ngarbage\n100644 blob 0123abd       7\tb\n".toList none
        "b".toList =
      (-1, some (GoError.New "unable to file size: garbage".toList)) :=
  FileSize_malformed_row_before_match
    "100644 blob 0123abc       5\ta\ngarbage\n100644 blob 0123abd       7\tb\n".toList
    "b".toList ["100644 blob 0123abc       5\ta".toList] "garbage".toList
    ["100644 blob 0123abd       7\tb".toList] (by decide) (by decide) (by decide)

/-- C4, counterexample: the row `garbage` has one field, it stands after the
row of the requested file `a`, and `FileSize` returns the size 5 with a nil
error. -/
theorem FileSize_malformed_row_after_match_ignored :
    BareRepo.FileSize.rows "100644 blob 0123abc       5\ta\ngarbage\n".toList =
      ["100644 blob 0123abc       5\ta".toList, "garbage".toList] ∧
    (BareRepo.FileSize.tuple "garbage".toList).length = 1 ∧
    BareRepo.FileSize "100644 blob 0123abc       5\ta\ngarbage\n".toList none "a".toList =
      (5, none) := by
  refine ⟨by decide, by decide, by decide⟩

/-- C5: the empty listing of an empty tree has no row named `a`, and `FileSize`
of `a` does not return the not-found error: `strings.Split` of the empty text
gives one empty row, which has one field, so that the error returned is that
of a malformed row, `unable to file size: `. -/
theorem FileSize_empty_listing_malformed_row_error :
    BareRepo.FileSize.rows [] = [[]] ∧
    (BareRepo.FileSize.tuple []).length = 1 ∧
    BareRepo.FileSize [] none "a".toList =
      (-1, some (GoError.New "unable to file size: ".toList)) ∧
    BareRepo.FileSize [] none "a".toList ≠
      (-1, some (GoError.New "unable to file size: file a not found".toList)) := by
  refine ⟨by decide, by decide, by decide, by decide⟩

/-- C8: for the empty list of filenames the output is empty, and `ListFiles`
returns one entry, the empty name, instead of no entry. -/
theorem ListFiles_empty_output_one_entry :
    BareRepo.ListFiles [] none = ([[]], none) ∧
    (BareRepo.ListFiles [] none).1.length = 1 := by
  constructor <;> decide

/-! ## Well-formed listings: what `ListFiles` and `FileSize` return -/

theorem stringsCut_none (sep : Char) (s : GoString) (h : sep ∉ s) :
    stringsCut sep s = none := by
  induction s with
  | nil => rfl
  | cons c cs ih =>
    have hc : c ≠ sep := fun e => h (by simp [e])
    have hcs : sep ∉ cs := fun e => h (by simp [e])
    simp [stringsCut, hc, ih hcs]

theorem stringsCut_append (sep : Char) (a r : GoString) (h : sep ∉ a) :
    stringsCut sep (a ++ sep :: r) = some (a, r) := by
  induction a with
  | nil => simp [stringsCut]
  | cons c cs ih =>
    have hc : c ≠ sep := fun e => h (by simp [e])
    have hcs : sep ∉ cs := fun e => h (by simp [e])
    simp [stringsCut, hc, ih hcs]

theorem genSplitLoop_joined (sep : Char) (rest : List GoString) :
    ∀ (first : GoString) (k : Nat), sep ∉ first → (∀ n ∈ rest, sep ∉ n) → rest.length ≤ k →
      genSplitLoop sep k (first ++ (rest.map (fun n => sep :: n)).flatten) = first :: rest := by
  induction rest with
  | nil =>
    intro first k hf _ _
    cases k with
    | zero => simp [genSplitLoop]
    | succ k => simp [genSplitLoop, stringsCut_none sep first hf]
  | cons n rest ih =>
    intro first k hf hr hk
    cases k with
    | zero => simp at hk
    | succ k =>
      have hn : sep ∉ n := hr n (List.mem_cons_self _ _)
      have := ih n k hn (fun m hm => hr m (List.mem_cons_of_mem _ hm)) (by simpa using hk)
      simp only [List.map_cons, List.flatten_cons, List.cons_append]
      simp only [genSplitLoop, stringsCut_append sep first _ hf]
      rw [this]

theorem count_joined (sep : Char) (rest : List GoString) :
    ∀ (first : GoString), sep ∉ first → (∀ n ∈ rest, sep ∉ n) →
      (first ++ (rest.map (fun n => sep :: n)).flatten).count sep = rest.length := by
  induction rest with
  | nil => intro first hf _; simpa using List.count_eq_zero_of_not_mem hf
  | cons n rest ih =>
    intro first hf hr
    have hn : sep ∉ n := hr n (List.mem_cons_self _ _)
    have := ih n hn (fun m hm => hr m (List.mem_cons_of_mem _ hm))
    simp only [List.map_cons, List.flatten_cons, List.cons_append, List.count_append,
      List.count_cons_self, List.length_cons] at this ⊢
    rw [List.count_eq_zero_of_not_mem hf]
    omega

theorem stringsSplit_joined (sep : Char) (first : GoString) (rest : List GoString)
    (hf : sep ∉ first) (hr : ∀ n ∈ rest, sep ∉ n) :
    stringsSplit (first ++ (rest.map (fun n => sep :: n)).flatten) sep = first :: rest := by
  unfold stringsSplit
  apply genSplitLoop_joined sep rest first _ hf hr
  rw [count_joined sep rest first hf hr]
  have := List.count_le_length sep (first ++ (rest.map (fun n => sep :: n)).flatten)
  rw [count_joined sep rest first hf hr] at this
  omega

theorem terminated_eq_joined (sep : Char) (first : GoString) (rest : List GoString) :
    ((first :: rest).map (fun n => n ++ [sep])).flatten =
      (first ++ (rest.map (fun n => sep :: n)).flatten) ++ [sep] := by
  induction rest generalizing first with
  | nil => simp
  | cons n rest ih =>
    have := ih n
    simp only [List.map_cons, List.flatten_cons] at this ⊢
    rw [this]
    simp

theorem joined_getLast (sep : Char) (rest : List GoString) :
    ∀ (first : GoString) (c : Char), first ≠ [] → (∀ n ∈ rest, n ≠ []) →
      (first ++ (rest.map (fun n => sep :: n)).flatten).getLast? = some c →
      ∃ n ∈ first :: rest, n.getLast? = some c := by
  induction rest with
  | nil =>
    intro first c _ _ h
    exact ⟨first, by simp, by simpa using h⟩
  | cons n rest ih =>
    intro first c _ hr h
    have hn : n ≠ [] := hr n (List.mem_cons_self _ _)
    have hne : n ++ (rest.map (fun n => sep :: n)).flatten ≠ [] := by simp [hn]
    simp only [List.map_cons, List.flatten_cons, List.cons_append] at h
    rw [List.getLast?_append_of_ne_nil _ (by simp)] at h
    obtain ⟨x, xs, hx⟩ := List.exists_cons_of_ne_nil hne
    rw [hx, List.getLast?_cons_cons, ← hx] at h
    obtain ⟨m, hm, hc⟩ := ih n c hn (fun m hm => hr m (List.mem_cons_of_mem _ hm)) h
    exact ⟨m, List.mem_cons_of_mem _ hm, hc⟩

theorem stringsTrimSpace_terminated (s : GoString) (hne : s ≠ [])
    (hhead : ∀ c, s.head? = some c → unicodeIsSpace c = false)
    (hlast : ∀ c, s.getLast? = some c → unicodeIsSpace c = false) :
    stringsTrimSpace (s ++ ['\n']) = s := by
  obtain ⟨c, cs, rfl⟩ := List.exists_cons_of_ne_nil hne
  have hc : unicodeIsSpace c = false := hhead c rfl
  have hl : unicodeIsSpace ((c :: cs).getLast hne) = false :=
    hlast _ (List.getLast?_eq_getLast _ hne)
  have hsplit : c :: cs = (c :: cs).dropLast ++ [(c :: cs).getLast hne] :=
    (List.dropLast_append_getLast hne).symm
  unfold stringsTrimSpace
  rw [List.cons_append, List.dropWhile_cons_of_neg (by simp [hc]), ← List.cons_append,
    List.reverse_append, List.reverse_singleton, List.singleton_append,
    List.dropWhile_cons_of_pos (by decide)]
  rw [hsplit, List.reverse_append, List.reverse_singleton, List.singleton_append,
    List.dropWhile_cons_of_neg (by simp [hl])]
  simp

theorem rows_of_lines (lines : List GoString) (hne : lines ≠ [])
    (h : ∀ n ∈ lines, n ≠ [] ∧ '\n' ∉ n ∧
      (∀ c, n.head? = some c → unicodeIsSpace c = false) ∧
      (∀ c, n.getLast? = some c → unicodeIsSpace c = false)) :
    stringsSplit (stringsTrimSpace ((lines.map (fun n => n ++ ['\n'])).flatten)) '\n' =
      lines := by
  obtain ⟨first, rest, rfl⟩ := List.exists_cons_of_ne_nil hne
  have hf := h first (List.mem_cons_self _ _)
  have hr : ∀ n ∈ rest, n ≠ [] ∧ '\n' ∉ n := fun n hn =>
    ⟨(h n (List.mem_cons_of_mem _ hn)).1, (h n (List.mem_cons_of_mem _ hn)).2.1⟩
  have hjne : first ++ (rest.map (fun n => '\n' :: n)).flatten ≠ [] := by simp [hf.1]
  have htrim : stringsTrimSpace
      ((first ++ (rest.map (fun n => '\n' :: n)).flatten) ++ ['\n']) =
      first ++ (rest.map (fun n => '\n' :: n)).flatten := by
    apply stringsTrimSpace_terminated _ hjne
    · intro c hc
      obtain ⟨x, xs, hx⟩ := List.exists_cons_of_ne_nil hf.1
      rw [hx] at hc
      exact hf.2.2.1 c (by rw [hx]; simpa using hc)
    · intro c hc
      obtain ⟨m, hm, hmc⟩ := joined_getLast '\n' rest first c hf.1 (fun n hn => (hr n hn).1) hc
      exact (h m hm).2.2.2 c hmc
  rw [terminated_eq_joined, htrim,
    stringsSplit_joined '\n' first rest hf.2.1 (fun n hn => (hr n hn).2)]

/-- For `n ≥ 1` filenames, each non-empty, without newline and without leading
or trailing whitespace, when the output is those names each terminated by a
newline, `ListFiles` returns exactly those names in the same order. -/
theorem ListFiles_returns_names (names : List GoString) (hne : names ≠ [])
    (h : ∀ n ∈ names, n ≠ [] ∧ '\n' ∉ n ∧
      (∀ c, n.head? = some c → unicodeIsSpace c = false) ∧
      (∀ c, n.getLast? = some c → unicodeIsSpace c = false)) :
    BareRepo.ListFiles ((names.map (fun n => n ++ ['\n'])).flatten) none = (names, none) := by
  unfold BareRepo.ListFiles
  simp only []
  rw [rows_of_lines names hne h]

theorem ListFiles_returns_names_example :
    BareRepo.ListFiles "README.md\nsrc/a b.go\n".toList none =
      (["README.md".toList, "src/a b.go".toList], none) :=
  ListFiles_returns_names ["README.md".toList, "src/a b.go".toList] (by decide) (by decide)

theorem reIsSpace_unicodeIsSpace (c : Char) (h : unicodeIsSpace c = false) :
    reIsSpace c = false := by
  by_contra hc
  have hc : reIsSpace c = true := by simpa using hc
  have : c = '\t' ∨ c = '\n' ∨ c.toNat = 12 ∨ c = '\r' ∨ c = ' ' := by
    simpa [reIsSpace, or_assoc] using hc
  have hu : unicodeIsSpace c = true := by
    rcases this with rfl | rfl | h12 | rfl | rfl
    · decide
    · decide
    · simp [unicodeIsSpace, h12]
    · decide
    · decide
  rw [h] at hu
  exact Bool.false_ne_true hu

theorem digit_not_space (c : Char) (h : '0' ≤ c ∧ c ≤ '9') : unicodeIsSpace c = false := by
  have h0 : 48 ≤ c.toNat := h.1
  have h9 : c.toNat ≤ 57 := h.2
  simp only [unicodeIsSpace, Bool.or_eq_false_iff, Bool.and_eq_false_iff, beq_eq_false_iff_ne,
    decide_eq_false_iff_not]
  omega

theorem replaceGo_nonspace (f : GoString) (hf : ∀ c ∈ f, reIsSpace c = false) (hne : f ≠ [])
    (b : Bool) (ys : GoString) :
    singleSpacePattern.ReplaceAllString.go b (f ++ ys) =
      f ++ singleSpacePattern.ReplaceAllString.go false ys := by
  induction f generalizing b with
  | nil => exact absurd rfl hne
  | cons c cs ih =>
    have hc : reIsSpace c = false := hf c (List.mem_cons_self _ _)
    cases cs with
    | nil => simp [singleSpacePattern.ReplaceAllString.go, hc]
    | cons d ds =>
      have := ih (fun x hx => hf x (List.mem_cons_of_mem _ hx)) (by simp) false
      simp only [List.cons_append] at this ⊢
      simp only [singleSpacePattern.ReplaceAllString.go, hc]
      simpa [singleSpacePattern.ReplaceAllString.go] using this

theorem replaceGo_spaces (k : Nat) (ys : GoString) :
    singleSpacePattern.ReplaceAllString.go true (List.replicate k ' ' ++ ys) =
      singleSpacePattern.ReplaceAllString.go true ys := by
  induction k with
  | zero => rfl
  | succ k ih =>
    simp only [List.replicate_succ, List.cons_append]
    rw [singleSpacePattern.ReplaceAllString.go]
    simpa [reIsSpace] using ih

theorem replaceGo_space_false (ys : GoString) :
    singleSpacePattern.ReplaceAllString.go false (' ' :: ys) =
      ' ' :: singleSpacePattern.ReplaceAllString.go true ys := by
  rw [singleSpacePattern.ReplaceAllString.go]
  simp [reIsSpace]

theorem replaceGo_true_of_head (s : GoString)
    (hhead : ∀ c, s.head? = some c → reIsSpace c = false) :
    singleSpacePattern.ReplaceAllString.go true s =
      singleSpacePattern.ReplaceAllString.go false s := by
  cases s with
  | nil => rfl
  | cons c cs =>
    have hc : reIsSpace c = false := hhead c rfl
    simp [singleSpacePattern.ReplaceAllString.go, hc]

theorem replaceGo_mem (s : GoString) :
    ∀ (b : Bool) (c : Char), c ∈ singleSpacePattern.ReplaceAllString.go b s →
      c = ' ' ∨ reIsSpace c = false := by
  induction s with
  | nil => intro b c h; simp [singleSpacePattern.ReplaceAllString.go] at h
  | cons x xs ih =>
    intro b c h
    rw [singleSpacePattern.ReplaceAllString.go] at h
    by_cases hx : reIsSpace x = true
    · cases b with
      | true => simp only [hx, if_true] at h; exact ih true c h
      | false =>
        simp only [hx, if_true, Bool.false_eq_true, if_false, List.mem_cons] at h
        rcases h with h | h
        · exact Or.inl h
        · exact ih true c h
    · have hx2 : reIsSpace x = false := by simpa using hx
      rw [hx2, if_neg Bool.false_ne_true, List.mem_cons] at h
      rcases h with h | h
      · exact Or.inr (by rw [h]; exact hx2)
      · exact ih false c h

theorem parseUintLoop_le (ds : GoString) :
    ∀ n : Nat, n ≤ ds.foldl (fun a c => a * 10 + (c.toNat - '0'.toNat)) n := by
  induction ds with
  | nil => intro n; exact Nat.le_refl n
  | cons c cs ih =>
    intro n
    have := ih (n * 10 + (c.toNat - '0'.toNat))
    simp only [List.foldl_cons]
    omega

theorem parseUintLoop_digits (ds : GoString) :
    ∀ n : Nat, (∀ c ∈ ds, '0' ≤ c ∧ c ≤ '9') →
      ds.foldl (fun a c => a * 10 + (c.toNat - '0'.toNat)) n < 2 ^ 64 →
      parseUintLoop n ds =
        ParseUintResult.value (ds.foldl (fun a c => a * 10 + (c.toNat - '0'.toNat)) n) := by
  induction ds with
  | nil => intro n _ _; rfl
  | cons c cs ih =>
    intro n hd hlt
    have hc := hd c (List.mem_cons_self _ _)
    have hle := parseUintLoop_le cs (n * 10 + (c.toNat - '0'.toNat))
    simp only [List.foldl_cons] at hlt ⊢
    have hb : n * 10 + (c.toNat - '0'.toNat) < 2 ^ 64 := Nat.lt_of_le_of_lt hle hlt
    have h1 : ¬ n ≥ (2 ^ 64 - 1) / 10 + 1 := by
      norm_num at hb ⊢
      omega
    have h2 : (n * 10) % 2 ^ 64 = n * 10 := Nat.mod_eq_of_lt (by omega)
    have h3 : (n * 10 + (c.toNat - '0'.toNat)) % 2 ^ 64 = n * 10 + (c.toNat - '0'.toNat) :=
      Nat.mod_eq_of_lt hb
    have h4 : ¬ (n * 10 + (c.toNat - '0'.toNat) < n * 10 ∨
        n * 10 + (c.toNat - '0'.toNat) > 2 ^ 64 - 1) := by omega
    rw [parseUintLoop]
    simp only [hc, and_self, if_true, h1, if_false, h2, h3, h4]
    exact ih _ (fun x hx => hd x (List.mem_cons_of_mem _ hx)) hlt

theorem strconvParseInt_decimal (s : GoString) (hs : IsDecimal s)
    (hv : decimalValue s < 2 ^ 63) :
    strconvParseInt s = ((decimalValue s : Int), none) := by
  obtain ⟨c, cs, rfl⟩ := List.exists_cons_of_ne_nil hs.1
  have hc := hs.2 c (List.mem_cons_self _ _)
  have hplus : c ≠ '+' := by
    intro e; rw [e] at hc; exact absurd hc.1 (by decide)
  have hminus : c ≠ '-' := by
    intro e; rw [e] at hc; exact absurd hc.1 (by decide)
  have hu : strconvParseUint (c :: cs) = ParseUintResult.value (decimalValue (c :: cs)) := by
    unfold strconvParseUint decimalValue
    rw [if_neg (by simp)]
    exact parseUintLoop_digits _ 0 hs.2 (Nat.lt_trans hv (by norm_num))
  unfold strconvParseInt
  simp only [List.head?_cons, Option.some.injEq, hplus, hminus, if_false, reduceCtorEq]
  have hv2 : decimalValue (c :: cs) < 9223372036854775808 := by simpa using hv
  rw [hu]
  simp [hv2]

theorem IsField.not_mem_space (f : GoString) (hf : IsField f) (c : Char)
    (hc : unicodeIsSpace c = true) : c ∉ f := by
  intro h
  have := hf.2 c h
  rw [hc] at this
  exact Bool.noConfusion this

theorem IsDecimal.isField (f : GoString) (hf : IsDecimal f) : IsField f :=
  ⟨hf.1, fun c hc => digit_not_space c (hf.2 c hc)⟩

theorem IsPlainName.not_mem_run (n : GoString) (hn : IsPlainName n) (c : Char)
    (hc : reIsSpace c = true) (hsp : c ≠ ' ') : c ∉ n := by
  intro h
  rw [← hn.2.1] at h
  rcases replaceGo_mem n false c h with h1 | h1
  · exact hsp h1
  · rw [hc] at h1; exact Bool.noConfusion h1

theorem stringsReplaceAll_id (s : GoString) (h : '\t' ∉ s) :
    stringsReplaceAll s '\t' ' ' = s := by
  unfold stringsReplaceAll
  induction s with
  | nil => rfl
  | cons c cs ih =>
    have hc : c ≠ '\t' := fun e => h (by simp [e])
    have hcs : '\t' ∉ cs := fun e => h (by simp [e])
    simp only [List.map_cons, hc, if_false, ih hcs]

theorem stringsReplaceAll_append (s t : GoString) :
    stringsReplaceAll (s ++ t) '\t' ' ' =
      stringsReplaceAll s '\t' ' ' ++ stringsReplaceAll t '\t' ' ' := by
  simp [stringsReplaceAll]

theorem stringsReplaceAll_cons (c : Char) (t : GoString) :
    stringsReplaceAll (c :: t) '\t' ' ' =
      (if c = '\t' then ' ' else c) :: stringsReplaceAll t '\t' ' ' := by
  simp [stringsReplaceAll]

theorem TreeRow.normalized_render (r : TreeRow) (h : r.WellFormed) :
    BareRepo.FileSize.normalized r.render =
      r.mode ++ ' ' :: (r.objType ++ ' ' :: (r.hash ++ ' ' :: (r.size ++ ' ' :: r.name))) := by
  obtain ⟨hm, ht, hh, hs, _, hn⟩ := h
  have hsf := IsDecimal.isField r.size hs
  have tabm := IsField.not_mem_space r.mode hm '\t' (by decide)
  have tabt := IsField.not_mem_space r.objType ht '\t' (by decide)
  have tabh := IsField.not_mem_space r.hash hh '\t' (by decide)
  have tabs := IsField.not_mem_space r.size hsf '\t' (by decide)
  have tabn := IsPlainName.not_mem_run r.name hn '\t' (by decide) (by decide)
  have tabp : stringsReplaceAll (List.replicate r.pad ' ') '\t' ' ' = List.replicate r.pad ' ' :=
    stringsReplaceAll_id _ (by
      intro hmem
      exact absurd (List.eq_of_mem_replicate hmem) (by decide))
  have hstep : stringsReplaceAll r.render '\t' ' ' =
      r.mode ++ ' ' :: (r.objType ++ ' ' :: (r.hash ++ ' ' ::
        (List.replicate r.pad ' ' ++ (r.size ++ ' ' :: r.name)))) := by
    unfold TreeRow.render
    simp only [stringsReplaceAll_append, stringsReplaceAll_cons, stringsReplaceAll_id _ tabm,
      stringsReplaceAll_id _ tabt, stringsReplaceAll_id _ tabh, stringsReplaceAll_id _ tabs,
      stringsReplaceAll_id _ tabn, tabp]
    simp
  have re (f : GoString) (hf : IsField f) : ∀ c ∈ f, reIsSpace c = false :=
    fun c hc => reIsSpace_unicodeIsSpace c (hf.2 c hc)
  unfold BareRepo.FileSize.normalized singleSpacePattern.ReplaceAllString
  rw [hstep, replaceGo_nonspace _ (re _ hm) hm.1, replaceGo_space_false,
    replaceGo_nonspace _ (re _ ht) ht.1, replaceGo_space_false,
    replaceGo_nonspace _ (re _ hh) hh.1, replaceGo_space_false, replaceGo_spaces,
    replaceGo_nonspace _ (re _ hsf) hsf.1, replaceGo_space_false,
    replaceGo_true_of_head _ hn.2.2.1]
  have := hn.2.1
  unfold singleSpacePattern.ReplaceAllString at this
  rw [this]

theorem TreeRow.tuple_render (r : TreeRow) (h : r.WellFormed) :
    BareRepo.FileSize.tuple r.render = [r.mode, r.objType, r.hash, r.size, r.name] := by
  have hnorm := TreeRow.normalized_render r h
  obtain ⟨hm, ht, hh, hs, _, hn⟩ := h
  have hsf := IsDecimal.isField r.size hs
  have spm := IsField.not_mem_space r.mode hm ' ' (by decide)
  have spt := IsField.not_mem_space r.objType ht ' ' (by decide)
  have sph := IsField.not_mem_space r.hash hh ' ' (by decide)
  have sps := IsField.not_mem_space r.size hsf ' ' (by decide)
  unfold BareRepo.FileSize.tuple
  rw [hnorm]
  unfold stringsSplitN
  have hlen : min 5 ((r.mode ++ ' ' :: (r.objType ++ ' ' :: (r.hash ++ ' ' ::
      (r.size ++ ' ' :: r.name)))).length + 1) - 1 = 4 := by
    simp only [List.length_append, List.length_cons]
    omega
  rw [if_neg (by decide), hlen]
  simp only [genSplitLoop, stringsCut_append _ _ _ spm, stringsCut_append _ _ _ spt,
    stringsCut_append _ _ _ sph, stringsCut_append _ _ _ sps]

theorem TreeRow.render_line (r : TreeRow) (h : r.WellFormed) :
    r.render ≠ [] ∧ '\n' ∉ r.render ∧
      (∀ c, r.render.head? = some c → unicodeIsSpace c = false) ∧
      (∀ c, r.render.getLast? = some c → unicodeIsSpace c = false) := by
  obtain ⟨hm, ht, hh, hs, _, hn⟩ := h
  have hsf := IsDecimal.isField r.size hs
  have nlm := IsField.not_mem_space r.mode hm '\n' (by decide)
  have nlt := IsField.not_mem_space r.objType ht '\n' (by decide)
  have nlh := IsField.not_mem_space r.hash hh '\n' (by decide)
  have nls := IsField.not_mem_space r.size hsf '\n' (by decide)
  have nln := IsPlainName.not_mem_run r.name hn '\n' (by decide) (by decide)
  obtain ⟨m, ms, hmode⟩ := List.exists_cons_of_ne_nil hm.1
  refine ⟨?_, ?_, ?_, ?_⟩
  · simp [TreeRow.render, hm.1]
  · unfold TreeRow.render
    simp only [List.mem_append, List.mem_cons, List.mem_replicate, not_or]
    refine ⟨nlm, by decide, nlt, by decide, nlh, by decide, ?_, nls, by decide, nln⟩
    intro hc
    exact absurd hc.2 (by decide)
  · intro c hc
    unfold TreeRow.render at hc
    rw [hmode] at hc
    have hcm : c = m := by simpa using hc.symm
    exact hm.2 c (by rw [hmode, hcm]; exact List.mem_cons_self _ _)
  · intro c hc
    apply hn.2.2.2 c
    unfold TreeRow.render at hc
    have e : r.mode ++ ' ' :: (r.objType ++ ' ' :: (r.hash ++ ' ' ::
        (List.replicate r.pad ' ' ++ (r.size ++ '\t' :: r.name)))) =
        (r.mode ++ ' ' :: (r.objType ++ ' ' :: (r.hash ++ ' ' ::
        (List.replicate r.pad ' ' ++ (r.size ++ ['\t']))))) ++ r.name := by simp
    rw [e, List.getLast?_append_of_ne_nil _ hn.1] at hc
    exact hc

theorem FileSize.loop_found (rows : List TreeRow) (hwf : ∀ r ∈ rows, r.WellFormed)
    (hd : (rows.map TreeRow.name).Nodup) (r : TreeRow) (hr : r ∈ rows) :
    BareRepo.FileSize.loop r.name (rows.map TreeRow.render) = strconvParseInt r.size := by
  induction rows with
  | nil => simp at hr
  | cons r0 rest ih =>
    have ht := TreeRow.tuple_render r0 (hwf r0 (List.mem_cons_self _ _))
    have hlen : (BareRepo.FileSize.tuple r0.render).length = 5 := by rw [ht]; rfl
    rw [List.map_cons, List.nodup_cons] at hd
    rw [List.map_cons]
    by_cases hname : r0.name = r.name
    · have hrr : r = r0 := by
        rcases List.mem_cons.mp hr with h | h
        · exact h
        · exact absurd (hname ▸ List.mem_map_of_mem TreeRow.name h) hd.1
      rw [FileSize.loop_match _ _ _ hlen (by rw [ht]; exact hname), ht, hrr]
      rfl
    · have hrest : r ∈ rest := by
        rcases List.mem_cons.mp hr with h | h
        · exact absurd (h ▸ rfl) hname
        · exact h
      rw [FileSize.loop_skip _ _ _ hlen (by rw [ht]; exact hname)]
      exact ih (fun q hq => hwf q (List.mem_cons_of_mem _ hq)) hd.2 hrest

/-- For a listing of well-formed rows `mode type hash size<TAB>name` with
pairwise distinct plain names, each terminated by a newline, `FileSize` of the
name of a row returns the number its size field denotes and a nil error. -/
theorem FileSize_returns_size (rows : List TreeRow) (hwf : ∀ r ∈ rows, r.WellFormed)
    (hd : (rows.map TreeRow.name).Nodup) (r : TreeRow) (hr : r ∈ rows) :
    BareRepo.FileSize ((rows.map (fun q => q.render ++ ['\n'])).flatten) none r.name =
      ((decimalValue r.size : Int), none) := by
  have hne : rows.map TreeRow.render ≠ [] := by
    intro h
    rw [List.map_eq_nil_iff] at h
    rw [h] at hr
    exact absurd hr (List.not_mem_nil _)
  have hlines : (rows.map (fun q => q.render ++ ['\n'])) =
      (rows.map TreeRow.render).map (fun n => n ++ ['\n']) := by
    rw [List.map_map]; rfl
  have hrows : BareRepo.FileSize.rows ((rows.map (fun q => q.render ++ ['\n'])).flatten) =
      rows.map TreeRow.render := by
    unfold BareRepo.FileSize.rows
    rw [hlines]
    apply rows_of_lines _ hne
    intro n hn
    obtain ⟨q, hq, rfl⟩ := List.mem_map.mp hn
    exact TreeRow.render_line q (hwf q hq)
  have hw := hwf r hr
  rw [FileSize.eq_loop, hrows, FileSize.loop_found rows hwf hd r hr,
    strconvParseInt_decimal r.size hw.2.2.2.1 hw.2.2.2.2.1]

theorem FileSize_returns_size_example :
    BareRepo.FileSize
      ("100644 blob 5716ca5987cbf97d6bb54920bea6adde242d87e6      12\ta b.txt\n" ++
        "100755 blob 7898192261a0a713b7e3c1bd7a5e9cb4e517a769 1048576\trun.sh\n").toList none
      "run.sh".toList = (1048576, none) :=
  FileSize_returns_size
    [⟨"100644".toList, "blob".toList, "5716ca5987cbf97d6bb54920bea6adde242d87e6".toList, 5,
        "12".toList, "a b.txt".toList⟩,
      ⟨"100755".toList, "blob".toList, "7898192261a0a713b7e3c1bd7a5e9cb4e517a769".toList, 0,
        "1048576".toList, "run.sh".toList⟩]
    (by decide) (by decide)
    ⟨"100755".toList, "blob".toList, "7898192261a0a713b7e3c1bd7a5e9cb4e517a769".toList, 0,
        "1048576".toList, "run.sh".toList⟩
    (by simp)

theorem FileSize.loop_unknown (rows : List TreeRow) (hwf : ∀ r ∈ rows, r.WellFormed)
    (filename : GoString) (hname : ∀ r ∈ rows, r.name ≠ filename) :
    BareRepo.FileSize.loop filename (rows.map TreeRow.render) =
      (-1, some (BareRepo.FileSize.notFound filename)) := by
  have h := FileSize.loop_skip_all filename (rows.map TreeRow.render) [] (by
    intro q hq
    obtain ⟨r, hr, rfl⟩ := List.mem_map.mp hq
    rw [TreeRow.tuple_render r (hwf r hr)]
    exact ⟨rfl, hname r hr⟩)
  rw [List.append_nil] at h
  rw [h, FileSize.loop_nil]

/-- For a listing of at least one well-formed row `mode type hash size<TAB>name`
with plain names, each row terminated by a newline, `FileSize` of a filename
that is the name of no row returns -1 and the error
`unable to file size: file <filename> not found`. -/
theorem FileSize_unknown_name_not_found (rows : List TreeRow) (hne : rows ≠ [])
    (hwf : ∀ r ∈ rows, r.WellFormed) (filename : GoString)
    (hname : ∀ r ∈ rows, r.name ≠ filename) :
    BareRepo.FileSize ((rows.map (fun q => q.render ++ ['\n'])).flatten) none filename =
      (-1, some (GoError.New
        ("unable to file size: file ".toList ++ filename ++ " not found".toList))) := by
  have hne2 : rows.map TreeRow.render ≠ [] := by
    intro h
    exact hne (List.map_eq_nil_iff.mp h)
  have hlines : (rows.map (fun q => q.render ++ ['\n'])) =
      (rows.map TreeRow.render).map (fun n => n ++ ['\n']) := by
    rw [List.map_map]; rfl
  have hrows : BareRepo.FileSize.rows ((rows.map (fun q => q.render ++ ['\n'])).flatten) =
      rows.map TreeRow.render := by
    unfold BareRepo.FileSize.rows
    rw [hlines]
    apply rows_of_lines _ hne2
    intro n hn
    obtain ⟨q, hq, rfl⟩ := List.mem_map.mp hn
    exact TreeRow.render_line q (hwf q hq)
  rw [FileSize.eq_loop, hrows, FileSize.loop_unknown rows hwf filename hname]
  rfl

theorem FileSize_unknown_name_not_found_example :
    BareRepo.FileSize
      "100644 blob 5716ca5987cbf97d6bb54920bea6adde242d87e6      12\ta b.txt\n".toList none
      "c".toList = (-1, some (GoError.New "unable to file size: file c not found".toList)) :=
  FileSize_unknown_name_not_found
    [⟨"100644".toList, "blob".toList, "5716ca5987cbf97d6bb54920bea6adde242d87e6".toList, 5,
        "12".toList, "a b.txt".toList⟩]
    (by simp) (by decide) "c".toList (by decide)

end GoRepo
